import Mathlib

/-!
Shallow embedding of `pyimof/util.py`, the multiresolution optical-flow
scaffolding of the pyimof repository: finite differences (`forward_diff`),
image warping (`warp`), flow rescaling (`upscale_flow`), pyramid
construction (`get_pyramid`) and the generic coarse-to-fine driver
(`coarse_to_fine`).

Modelling conventions:
- numpy 2D float arrays become `Grid`: a shape `(h, w)` together with a
  total sample function `ℕ → ℕ → ℚ`; ideal (exact rational) arithmetic
  stands in for IEEE floating point.
- n-dimensional arrays entering `coarse_to_fine` become `Arr` (a shape
  list plus a sample function), so the `ndim` check is representable.
- Python exceptions become `Except PyErr`: `ValueError` for the shape and
  dimensionality checks, `IndexError` for out-of-bounds negative indexing,
  `ZeroDivisionError` for division by a zero dimension.
- the `while` loop of `get_pyramid` is modelled with explicit fuel
  (`pyramidLoop`); `none` marks fuel exhaustion.  The wrapper supplies
  `min h w + 1` units of fuel, which is proved sufficient whenever the
  Python loop terminates (downscale 2, `min_size ≥ 1`); for `min_size = 0`
  the Python loop diverges and the model returns `none` for every fuel.
- `skimage.transform.pyramid_reduce` is an external library call; its
  output shape (`ceil(dim / downscale)` per axis) is modelled exactly,
  while the Gaussian-smoothed sample values are abstracted by a `smooth`
  parameter (the Gaussian kernel uses `exp` and is not exactly
  representable; every claim below depends only on the shapes and on
  determinism of the reduction).
- `skimage.transform.resize` with `order=0` (nearest neighbour, no
  anti-aliasing) maps output index `i` of an axis resized from `n` to `n'`
  samples to input index `round((i + 1/2) * n / n' - 1/2) =
  floor((2i+1)·n / (2n'))`, modelled by `resize0`.
- `scipy.ndimage.map_coordinates` with `order=1, mode='nearest'` is
  bilinear interpolation with edge-replicating index clamping,
  modelled by `bilinear` / `clampIdx`.
-/

/-- A 2D numpy array: shape `(h, w)` plus a total sample function.
Samples at indices `i < h`, `j < w` are the array's entries. -/
@[ext]
structure Grid where
  h : ℕ
  w : ℕ
  data : ℕ → ℕ → ℚ

/-- Python exceptions raised by the code under `src/pyimof/util.py`. -/
inductive PyErr where
  /-- `ValueError("Images should have the same size")` in `get_pyramid`. -/
  | shapeMismatch
  /-- `ValueError("Images should be grayscale.")` in `coarse_to_fine`. -/
  | dimensionality
  /-- `ZeroDivisionError` from `shape[0]/nl` or `shape[1]/nc` in `upscale_flow`. -/
  | zeroDivision
  /-- `IndexError` from a negative index resolving out of bounds. -/
  | indexError
deriving DecidableEq

/-- Every sample of the grid is zero. -/
def Grid.isZero (g : Grid) : Prop := ∀ i j, g.data i j = 0

/-- `forward_diff(p)` (util.py lines 13-25).  `p_x = p.copy();
p_x[:, :-1] -= p[:, 1:]; p_x[:, -1] = p_x[:, -2]`, and the transpose for
`p_y`.  The assignments `p_x[:, -2]` / `p_y[-2, :]` raise `IndexError`
when the corresponding dimension is `< 2` (numpy resolves `-2` to
`size - 2`, negative hence out of bounds). -/
def forward_diff (p : Grid) : Except PyErr (Grid × Grid) :=
  if 2 ≤ p.w ∧ 2 ≤ p.h then
    .ok (⟨p.h, p.w, fun i j =>
           if j + 1 < p.w then p.data i j - p.data i (j + 1)
           else p.data i (p.w - 2) - p.data i (p.w - 1)⟩,
         ⟨p.h, p.w, fun i j =>
           if i + 1 < p.h then p.data i j - p.data (i + 1) j
           else p.data (p.h - 2) j - p.data (p.h - 1) j⟩)
  else .error .indexError

/-- Clamp an integer coordinate into `[0, n-1]` (edge replication,
scipy `mode='nearest'`). -/
def clampIdx (n : ℕ) (z : ℤ) : ℕ := z.toNat ⊓ (n - 1)

/-- `scipy.ndimage.map_coordinates(I, [r, c], order=1, mode='nearest')` at
one coordinate pair: bilinear interpolation between the four neighbouring
samples, indices clamped to the image (edge replication). -/
def bilinear (I : Grid) (r c : ℚ) : ℚ :=
  let r0 : ℤ := ⌊r⌋
  let c0 : ℤ := ⌊c⌋
  let fr : ℚ := r - (r0 : ℚ)
  let fc : ℚ := c - (c0 : ℚ)
  (1 - fr) * (1 - fc) * I.data (clampIdx I.h r0) (clampIdx I.w c0)
    + (1 - fr) * fc * I.data (clampIdx I.h r0) (clampIdx I.w (c0 + 1))
    + fr * (1 - fc) * I.data (clampIdx I.h (r0 + 1)) (clampIdx I.w c0)
    + fr * fc * I.data (clampIdx I.h (r0 + 1)) (clampIdx I.w (c0 + 1))

/-- `warp(I, u, v, x=None, y=None, mode='nearest')` (util.py lines 43-51).
When either coordinate grid is missing, both are regenerated as
`np.meshgrid(np.arange(nl)-0.5, np.arange(nc)-0.5, indexing='ij')`, i.e.
`y[i,j] = i - 1/2` and `x[i,j] = j - 1/2`; the result samples `I` at
`[y+v, x+u]` with order-1 (bilinear) interpolation and `'nearest'`
(edge-replicating) boundary handling. -/
def warp (I u v : Grid) (xo : Option Grid) (yo : Option Grid) : Grid :=
  match xo, yo with
  | some xg, some yg =>
      ⟨yg.h, yg.w, fun i j =>
        bilinear I (yg.data i j + v.data i j) (xg.data i j + u.data i j)⟩
  | _, _ =>
      ⟨I.h, I.w, fun i j =>
        bilinear I (((i : ℚ) - 1/2) + v.data i j) (((j : ℚ) - 1/2) + u.data i j)⟩

/-- Nearest-neighbour resize (`skimage.transform.resize` with `order=0`,
`preserve_range=True`, `anti_aliasing=False`): output sample `(i, j)` of
the target shape `(h', w')` reads the input at the rounded source
coordinate, `floor((2i+1)·h / (2h'))` per axis. -/
def resize0 (g : Grid) (h' w' : ℕ) : Grid :=
  ⟨h', w', fun i j => g.data ((2 * i + 1) * g.h / (2 * h')) ((2 * j + 1) * g.w / (2 * w'))⟩

/-- `upscale_flow(u, v, shape)` (util.py lines 54-67): per-axis scale
factors `sy = shape[0]/nl`, `sx = shape[1]/nc` from `u`'s shape (Python
raises `ZeroDivisionError` when a current dimension is zero), order-0
resize of both components, then `(sx*u, sy*v)`. -/
def upscale_flow (u v : Grid) (shape : ℕ × ℕ) : Except PyErr (Grid × Grid) :=
  if u.h = 0 ∨ u.w = 0 then .error .zeroDivision
  else
    let sy : ℚ := (shape.1 : ℚ) / (u.h : ℚ)
    let sx : ℚ := (shape.2 : ℚ) / (u.w : ℚ)
    .ok (⟨shape.1, shape.2, fun i j => sx * (resize0 u shape.1 shape.2).data i j⟩,
         ⟨shape.1, shape.2, fun i j => sy * (resize0 v shape.1 shape.2).data i j⟩)

/-- Output length of one axis under `skimage.transform.pyramid_reduce`:
`ceil(n / downscale)`. -/
def reduceDim (downscale : ℚ) (n : ℕ) : ℕ := (⌈(n : ℚ) / downscale⌉).toNat

/-- `skimage.transform.pyramid_reduce(I, downscale, multichannel=False)`:
the output shape is `ceil(dim / downscale)` per axis; the Gaussian-smoothed
resampled values are abstracted by the deterministic parameter `smooth`
(see the module docstring). -/
def pyramid_reduce (smooth : Grid → ℕ → ℕ → ℚ) (I : Grid) (downscale : ℚ) : Grid :=
  ⟨reduceDim downscale I.h, reduceDim downscale I.w, smooth I⟩

/-- The `while size > min_size` loop of `get_pyramid` (util.py lines
81-85), with explicit fuel.  The accumulator holds the levels built so
far, most recent first, so that the final accumulator is exactly the
source's `pyramid[::-1]` (coarsest level first).  `cur` is the most
recently built pair (`pyramid[-1]`); `size` is recomputed as
`min(cur[0].shape[:2])`. -/
def pyramidLoop (smooth : Grid → ℕ → ℕ → ℚ) (downscale : ℚ) (min_size : ℕ) :
    ℕ → Grid × Grid → List (Grid × Grid) → Option (List (Grid × Grid))
  | 0, _, _ => none
  | fuel + 1, cur, accRest =>
    if min_size < min cur.1.h cur.1.w then
      let J0 := pyramid_reduce smooth cur.1 downscale
      let J1 := pyramid_reduce smooth cur.2 downscale
      pyramidLoop smooth downscale min_size fuel (J0, J1) (cur :: accRest)
    else some (cur :: accRest)

/-- `get_pyramid(I0, I1, downscale=2.0, min_size=16)` (util.py lines
70-87).  Raises `ValueError` when the shapes differ, otherwise builds the
pyramid and returns it coarsest-first.  `none` inside `.ok` marks
divergence of the `while` loop (see the module docstring). -/
def get_pyramid (smooth : Grid → ℕ → ℕ → ℚ) (I0 I1 : Grid) (downscale : ℚ)
    (min_size : ℕ) : Except PyErr (Option (List (Grid × Grid))) :=
  if (I0.h, I0.w) ≠ (I1.h, I1.w) then .error .shapeMismatch
  else .ok (pyramidLoop smooth downscale min_size (min I0.h I0.w + 1) (I0, I1) [])

/-- An n-dimensional numpy array entering `coarse_to_fine`: a shape list
plus a total sample function on multi-indices. -/
structure Arr where
  shape : List ℕ
  data : List ℕ → ℚ

/-- `ndarray.ndim`. -/
def Arr.ndim (a : Arr) : ℕ := a.shape.length

/-- View a (2D) `Arr` as a `Grid`. -/
def Arr.toGrid (a : Arr) : Grid :=
  ⟨a.shape.getD 0 0, a.shape.getD 1 0, fun i j => a.data [i, j]⟩

/-- `skimage.img_as_float32`: converts to floating point; on
floating-point input it preserves the sample values (exactly so in this
rational model), which is the canonical-precision normalization the
driver performs. -/
def img_as_float32 (g : Grid) : Grid := g

/-- `np.zeros_like`. -/
def zeros_like (g : Grid) : Grid := ⟨g.h, g.w, fun _ _ => 0⟩

/-- The injected per-level solver: `(J0, J1, u, v) ↦ (u', v')`. -/
abbrev Solver := Grid → Grid → Grid → Grid → Grid × Grid

/-- The `for J0, J1 in pyramid[1:]` loop of `coarse_to_fine` (util.py
lines 106-108): rescale the flow to the level's shape, then let the
solver refine it. -/
def levelLoop (solver : Solver) : List (Grid × Grid) → Grid × Grid →
    Except PyErr (Grid × Grid)
  | [], uv => .ok uv
  | (J0, J1) :: rest, (u, v) =>
    match upscale_flow u v (J0.h, J0.w) with
    | .error e => .error e
    | .ok (u1, v1) => levelLoop solver rest (solver J0 J1 u1 v1)

/-- `coarse_to_fine(I0, I1, solver, downscale=2.0)` (util.py lines
90-110): reject non-2D inputs, convert to float, build the pyramid with
`min_size = 16`, start from the all-zero flow at the coarsest level, solve
it, then refine level by level. -/
def coarse_to_fine (smooth : Grid → ℕ → ℕ → ℚ) (I0 I1 : Arr) (solver : Solver)
    (downscale : ℚ) : Except PyErr (Option (Grid × Grid)) :=
  if I0.ndim ≠ 2 ∨ I1.ndim ≠ 2 then .error .dimensionality
  else
    match get_pyramid smooth (img_as_float32 I0.toGrid) (img_as_float32 I1.toGrid)
        downscale 16 with
    | .error e => .error e
    | .ok none => .ok none
    | .ok (some []) => .error .indexError
    | .ok (some (p0 :: rest)) =>
      let u := zeros_like p0.1
      let v := zeros_like u
      match levelLoop solver rest (solver p0.1 p0.2 u v) with
      | .error e => .error e
      | .ok uv => .ok (some uv)

/-- One recorded invocation of the injected solver: the image pair and the
initial flow it received. -/
structure SolverCall where
  J0 : Grid
  J1 : Grid
  u : Grid
  v : Grid

/-- `levelLoop` instrumented with the list of solver invocations, in
order. -/
def levelLoopT (solver : Solver) : List (Grid × Grid) → Grid × Grid →
    Except PyErr (List SolverCall × (Grid × Grid))
  | [], uv => .ok ([], uv)
  | (J0, J1) :: rest, (u, v) =>
    match upscale_flow u v (J0.h, J0.w) with
    | .error e => .error e
    | .ok (u1, v1) =>
      match levelLoopT solver rest (solver J0 J1 u1 v1) with
      | .error e => .error e
      | .ok (tr, res) => .ok (⟨J0, J1, u1, v1⟩ :: tr, res)

/-- `coarse_to_fine` instrumented with the list of solver invocations, in
order (the coarsest-level call included). -/
def coarse_to_fine_traced (smooth : Grid → ℕ → ℕ → ℚ) (I0 I1 : Arr)
    (solver : Solver) (downscale : ℚ) :
    Except PyErr (Option (List SolverCall × (Grid × Grid))) :=
  if I0.ndim ≠ 2 ∨ I1.ndim ≠ 2 then .error .dimensionality
  else
    match get_pyramid smooth (img_as_float32 I0.toGrid) (img_as_float32 I1.toGrid)
        downscale 16 with
    | .error e => .error e
    | .ok none => .ok none
    | .ok (some []) => .error .indexError
    | .ok (some (p0 :: rest)) =>
      let u := zeros_like p0.1
      let v := zeros_like u
      match levelLoopT solver rest (solver p0.1 p0.2 u v) with
      | .error e => .error e
      | .ok (tr, res) => .ok (some (⟨p0.1, p0.2, u, v⟩ :: tr, res))

/-- The coarse-to-fine call discipline, as a relation: starting from flow
`uv`, each recorded call received the previous flow rescaled (by
`upscale_flow`) to its level's shape, and handed its refined output to the
next; `res` is the last output. -/
def chainFrom (solver : Solver) : Grid × Grid → List SolverCall → Grid × Grid → Prop
  | uv, [], res => res = uv
  | uv, c :: tr, res =>
    upscale_flow uv.1 uv.2 (c.J0.h, c.J0.w) = .ok (c.u, c.v) ∧
      chainFrom solver (solver c.J0 c.J1 c.u c.v) tr res

/-- The solver that returns its input flow unchanged. -/
def idSolver : Solver := fun _ _ u v => (u, v)

/-! ### Arithmetic helpers -/

/-- With the default downscale factor `2.0`, `pyramid_reduce` maps an axis
of length `n` to length `⌈n/2⌉ = (n+1)/2`. -/
lemma reduceDim_two (n : ℕ) : reduceDim 2 n = (n + 1) / 2 := by
  unfold reduceDim
  have h2 : (⌈(n : ℚ) / 2⌉) = (((n + 1) / 2 : ℕ) : ℤ) := by
    rw [Int.ceil_eq_iff]
    have hq1 : 2 * ((n + 1) / 2) ≤ n + 1 := by omega
    have hq2 : n + 1 < 2 * ((n + 1) / 2) + 2 := by omega
    have c1 : (2 : ℚ) * (((n + 1) / 2 : ℕ) : ℚ) ≤ (n : ℚ) + 1 := by exact_mod_cast hq1
    have hq3 : n ≤ 2 * ((n + 1) / 2) := by omega
    have c2 : (n : ℚ) ≤ 2 * (((n + 1) / 2 : ℕ) : ℚ) := by exact_mod_cast hq3
    constructor
    · rw [Int.cast_natCast]
      linarith
    · rw [Int.cast_natCast]
      linarith
  rw [h2]
  exact Int.toNat_natCast _

/-- Nearest-neighbour resampling to the same axis length is the identity
on indices. -/
lemma resize0_idx_self (n i : ℕ) (hn : 1 ≤ n) : (2 * i + 1) * n / (2 * n) = i := by
  have he : (2 * i + 1) * n = 2 * n * i + n := by ring
  rw [he, Nat.mul_add_div (by omega)]
  rw [Nat.div_eq_of_lt (by omega)]
  omega

/-- The nearest-neighbour source index is always in range. -/
lemma resize0_idx_lt (n n' i : ℕ) (hn : 1 ≤ n) (hi : i < n') :
    (2 * i + 1) * n / (2 * n') < n := by
  rw [Nat.div_lt_iff_lt_mul (by omega : 0 < 2 * n')]
  calc (2 * i + 1) * n < (2 * n') * n := by
        exact Nat.mul_lt_mul_of_lt_of_le (by omega) (le_refl n) (by omega)
    _ = n * (2 * n') := by ring

/-! ### C8: forward_diff on a constant grid -/

/-- C8 (counterexample).  The claim quantifies over *every* constant 2D
grid, but on a 1×1 grid (constant 3) the assignment `p_x[:, -1] = p_x[:, -2]`
resolves index `-2` on an axis of size 1, which is out of bounds: the code
raises `IndexError` instead of returning all-zero derivative grids. -/
theorem counterexample_C8 :
    forward_diff ⟨1, 1, fun _ _ => 3⟩ = .error .indexError := rfl

/-- C8 (amended: both dimensions must be at least 2, otherwise the code
raises `IndexError`).  For every constant grid with `h ≥ 2` and `w ≥ 2`,
`forward_diff` returns two grids of the input's shape whose entries are
all zero, the replicated last row/column included. -/
theorem claim_C8 (p : Grid) (c : ℚ) (hh : 2 ≤ p.h) (hw : 2 ≤ p.w)
    (hc : ∀ i j, i < p.h → j < p.w → p.data i j = c) :
    ∃ px py, forward_diff p = .ok (px, py) ∧
      px.h = p.h ∧ px.w = p.w ∧ py.h = p.h ∧ py.w = p.w ∧
      (∀ i j, i < p.h → j < p.w → px.data i j = 0 ∧ py.data i j = 0) := by
  have hfd : forward_diff p =
      .ok (⟨p.h, p.w, fun i j =>
              if j + 1 < p.w then p.data i j - p.data i (j + 1)
              else p.data i (p.w - 2) - p.data i (p.w - 1)⟩,
           ⟨p.h, p.w, fun i j =>
              if i + 1 < p.h then p.data i j - p.data (i + 1) j
              else p.data (p.h - 2) j - p.data (p.h - 1) j⟩) := by
    rw [forward_diff, if_pos ⟨hw, hh⟩]
  refine ⟨_, _, hfd, rfl, rfl, rfl, rfl, ?_⟩
  intro i j hi hj
  constructor
  · show (if j + 1 < p.w then p.data i j - p.data i (j + 1)
      else p.data i (p.w - 2) - p.data i (p.w - 1)) = 0
    by_cases h : j + 1 < p.w
    · rw [if_pos h, hc i j hi hj, hc i (j + 1) hi h, sub_self]
    · rw [if_neg h, hc i (p.w - 2) hi (by omega), hc i (p.w - 1) hi (by omega),
        sub_self]
  · show (if i + 1 < p.h then p.data i j - p.data (i + 1) j
      else p.data (p.h - 2) j - p.data (p.h - 1) j) = 0
    by_cases h : i + 1 < p.h
    · rw [if_pos h, hc i j hi hj, hc (i + 1) j h hj, sub_self]
    · rw [if_neg h, hc (p.h - 2) j (by omega) hj, hc (p.h - 1) j (by omega) hj,
        sub_self]

/-- C8 (witness): the amended theorem applied to the constant-7 grid of
shape 2×2. -/
theorem claim_C8_witness :
    2 ≤ (⟨2, 2, fun _ _ => 7⟩ : Grid).h ∧ 2 ≤ (⟨2, 2, fun _ _ => 7⟩ : Grid).w ∧
    (∃ px py, forward_diff ⟨2, 2, fun _ _ => 7⟩ = .ok (px, py) ∧
      px.h = 2 ∧ px.w = 2 ∧ py.h = 2 ∧ py.w = 2 ∧
      (∀ i j, i < 2 → j < 2 → px.data i j = 0 ∧ py.data i j = 0)) :=
  ⟨by decide, by decide, claim_C8 ⟨2, 2, fun _ _ => 7⟩ 7 (by decide) (by decide)
    (fun _ _ _ _ => rfl)⟩

/-! ### C10: upscale_flow to the unchanged shape -/

/-- C10 (counterexample).  The claim quantifies over *every* flow field,
but for the empty (0×0) flow field the Python expression `shape[0]/nl`
divides by zero: the code raises `ZeroDivisionError` instead of returning
the inputs. -/
theorem counterexample_C10 :
    upscale_flow ⟨0, 0, fun _ _ => 0⟩ ⟨0, 0, fun _ _ => 0⟩ (0, 0) =
      .error .zeroDivision := rfl

/-- C10 (amended: the flow field must be nonempty, otherwise the code
raises `ZeroDivisionError`).  Rescaling a flow field to its own shape is
the identity: both per-axis scale factors are 1 and the order-0 resize
maps every sample to itself, so the returned pair equals the input
pair. -/
theorem claim_C10 (u v : Grid) (hh : 1 ≤ u.h) (hw : 1 ≤ u.w)
    (hvh : v.h = u.h) (hvw : v.w = u.w) :
    upscale_flow u v (u.h, u.w) = .ok (u, v) := by
  rw [upscale_flow, if_neg (by omega)]
  simp only [resize0]
  congr 1
  refine Prod.ext ?_ ?_
  · ext i j
    · rfl
    · rfl
    · simp only
      rw [resize0_idx_self u.h i hh, resize0_idx_self u.w j hw,
        div_self (by positivity : ((u.w : ℚ)) ≠ 0), one_mul]
  · ext i j
    · exact hvh.symm
    · exact hvw.symm
    · simp only
      rw [hvh, hvw, resize0_idx_self u.h i hh, resize0_idx_self u.w j hw,
        div_self (by positivity : ((u.h : ℚ)) ≠ 0), one_mul]

/-- C10 (witness): the amended theorem applied to a concrete nonempty 2×2
flow field. -/
theorem claim_C10_witness :
    1 ≤ (⟨2, 2, fun i j => i + 2 * j⟩ : Grid).h ∧
    1 ≤ (⟨2, 2, fun i j => i + 2 * j⟩ : Grid).w ∧
    upscale_flow ⟨2, 2, fun i j => i + 2 * j⟩ ⟨2, 2, fun i j => i * j⟩ (2, 2) =
      .ok (⟨2, 2, fun i j => i + 2 * j⟩, ⟨2, 2, fun i j => i * j⟩) :=
  ⟨by decide, by decide,
    claim_C10 ⟨2, 2, fun i j => i + 2 * j⟩ ⟨2, 2, fun i j => i * j⟩
      (by decide) (by decide) rfl rfl⟩

/-! ### C2: upscale_flow shape and uniform-field scaling -/

/-- C2 (counterexample).  The claim quantifies over *every* flow field
shape `(h, w)`, but for the empty (0×0) flow field the Python expression
`shape[0]/nl` divides by zero: the code raises `ZeroDivisionError`
instead of returning two grids of the target shape. -/
theorem counterexample_C2 :
    upscale_flow ⟨0, 0, fun _ _ => 0⟩ ⟨0, 0, fun _ _ => 0⟩ (3, 3) =
      .error .zeroDivision := rfl

/-- C2 (amended: the current shape `(h, w)` must be nonzero, otherwise
the code raises `ZeroDivisionError`).  `upscale_flow (u, v) (h', w')`
returns two grids of exactly the target shape, and a uniform field
`u ≡ c1, v ≡ c2` is mapped to the uniform field
`(c1·w'/w, c2·h'/h)`: the resized `u` is multiplied by the column scale
`sx = w'/w` and the resized `v` by the row scale `sy = h'/h`. -/
theorem claim_C2 (u v : Grid) (h' w' : ℕ) (hh : 1 ≤ u.h) (hw : 1 ≤ u.w)
    (hvh : v.h = u.h) (hvw : v.w = u.w) :
    ∃ u' v', upscale_flow u v (h', w') = .ok (u', v') ∧
      u'.h = h' ∧ u'.w = w' ∧ v'.h = h' ∧ v'.w = w' ∧
      ∀ c1 c2, (∀ i j, i < u.h → j < u.w → u.data i j = c1) →
        (∀ i j, i < v.h → j < v.w → v.data i j = c2) →
        ∀ i j, i < h' → j < w' →
          u'.data i j = c1 * (w' : ℚ) / (u.w : ℚ) ∧
          v'.data i j = c2 * (h' : ℚ) / (u.h : ℚ) := by
  have hup : upscale_flow u v (h', w') =
      .ok (⟨h', w', fun i j =>
              ((w' : ℚ) / (u.w : ℚ)) * (resize0 u h' w').data i j⟩,
           ⟨h', w', fun i j =>
              ((h' : ℚ) / (u.h : ℚ)) * (resize0 v h' w').data i j⟩) := by
    rw [upscale_flow, if_neg (by omega)]
  refine ⟨_, _, hup, rfl, rfl, rfl, rfl, ?_⟩
  intro c1 c2 hc1 hc2 i j hi hj
  constructor
  · show ((w' : ℚ) / (u.w : ℚ)) * (resize0 u h' w').data i j =
      c1 * (w' : ℚ) / (u.w : ℚ)
    have := hc1 ((2 * i + 1) * u.h / (2 * h')) ((2 * j + 1) * u.w / (2 * w'))
      (resize0_idx_lt u.h h' i hh hi) (resize0_idx_lt u.w w' j hw hj)
    rw [resize0]
    simp only
    rw [this]
    ring
  · show ((h' : ℚ) / (u.h : ℚ)) * (resize0 v h' w').data i j =
      c2 * (h' : ℚ) / (u.h : ℚ)
    have := hc2 ((2 * i + 1) * v.h / (2 * h')) ((2 * j + 1) * v.w / (2 * w'))
      (resize0_idx_lt v.h h' i (by omega) hi) (resize0_idx_lt v.w w' j (by omega) hj)
    rw [resize0]
    simp only
    rw [this]
    ring

/-- C2 (witness): the amended theorem applied to the uniform 2×2 field
`u ≡ 3, v ≡ 5` rescaled to shape (4, 6). -/
theorem claim_C2_witness :
    1 ≤ (⟨2, 2, fun _ _ => 3⟩ : Grid).h ∧ 1 ≤ (⟨2, 2, fun _ _ => 3⟩ : Grid).w ∧
    (∃ u' v', upscale_flow ⟨2, 2, fun _ _ => 3⟩ ⟨2, 2, fun _ _ => 5⟩ (4, 6) =
        .ok (u', v') ∧
      u'.h = 4 ∧ u'.w = 6 ∧ v'.h = 4 ∧ v'.w = 6 ∧
      ∀ c1 c2, (∀ i j, i < 2 → j < 2 → (3 : ℚ) = c1) →
        (∀ i j, i < 2 → j < 2 → (5 : ℚ) = c2) →
        ∀ i j, i < 4 → j < 6 →
          u'.data i j = c1 * (6 : ℚ) / (2 : ℚ) ∧
          v'.data i j = c2 * (4 : ℚ) / (2 : ℚ)) :=
  ⟨by decide, by decide,
    claim_C2 ⟨2, 2, fun _ _ => 3⟩ ⟨2, 2, fun _ _ => 5⟩ 4 6
      (by decide) (by decide) rfl rfl⟩

/-! ### C1: warp under zero flow with the generated coordinate grids -/

/-- Floor of a half-integer coordinate: `⌊i - 1/2⌋ = i - 1`. -/
lemma floor_sub_half (i : ℕ) : ⌊(i : ℚ) - 1/2⌋ = (i : ℤ) - 1 := by
  rw [Int.floor_eq_iff]
  constructor
  · push_cast
    linarith
  · push_cast
    linarith

/-- Value of `warp` with all-zero flow at a pixel `(i, j)` with
`i, j ≥ 1`: the generated grids sample `I` at `(i - 1/2, j - 1/2)`, and
bilinear interpolation there is the mean of the four samples
`I[i-1..i, j-1..j]`. -/
lemma warp_zero_flow_avg (I u v : Grid) (hu : u.isZero) (hv : v.isZero)
    (i j : ℕ) (hi1 : 1 ≤ i) (hih : i < I.h) (hj1 : 1 ≤ j) (hjw : j < I.w) :
    (warp I u v none none).data i j =
      (I.data (i - 1) (j - 1) + I.data (i - 1) j +
        I.data i (j - 1) + I.data i j) / 4 := by
  show bilinear I (((i : ℚ) - 1/2) + v.data i j) (((j : ℚ) - 1/2) + u.data i j) = _
  rw [hu i j, hv i j, add_zero, add_zero]
  rw [bilinear]
  simp only [floor_sub_half]
  have cr1 : clampIdx I.h ((i : ℤ) - 1) = i - 1 := by
    unfold clampIdx
    omega
  have cr2 : clampIdx I.h ((i : ℤ) - 1 + 1) = i := by
    unfold clampIdx
    omega
  have cc1 : clampIdx I.w ((j : ℤ) - 1) = j - 1 := by
    unfold clampIdx
    omega
  have cc2 : clampIdx I.w ((j : ℤ) - 1 + 1) = j := by
    unfold clampIdx
    omega
  rw [cr1, cr2, cc1, cc2]
  have hfr : (i : ℚ) - 1/2 - (((i : ℤ) - 1 : ℤ) : ℚ) = 1/2 := by
    push_cast
    ring
  have hfc : (j : ℚ) - 1/2 - (((j : ℤ) - 1 : ℤ) : ℚ) = 1/2 := by
    push_cast
    ring
  rw [hfr, hfc]
  ring

/-- C1 (counterexample).  On the 3×3 image that is 4 at the centre and 0
elsewhere, `warp` with zero flow and no explicit grids returns `1` at the
interior pixel `(1,1)` (the mean of the 2×2 neighbourhood up-left of the
pixel, because the generated grids are offset by −0.5), not the original
value `4`: zero-displacement `warp` is *not* the identity at interior
pixels. -/
theorem counterexample_C1 :
    (warp ⟨3, 3, fun i j => if i = 1 ∧ j = 1 then 4 else 0⟩
        (zeros_like ⟨3, 3, fun i j => if i = 1 ∧ j = 1 then 4 else 0⟩)
        (zeros_like ⟨3, 3, fun i j => if i = 1 ∧ j = 1 then 4 else 0⟩)
        none none).data 1 1 ≠
      (⟨3, 3, fun i j => if i = 1 ∧ j = 1 then 4 else 0⟩ : Grid).data 1 1 := by
  have h := warp_zero_flow_avg ⟨3, 3, fun i j => if i = 1 ∧ j = 1 then 4 else 0⟩
    (zeros_like ⟨3, 3, fun i j => if i = 1 ∧ j = 1 then 4 else 0⟩)
    (zeros_like ⟨3, 3, fun i j => if i = 1 ∧ j = 1 then 4 else 0⟩)
    (fun _ _ => rfl) (fun _ _ => rfl) 1 1 (by decide) (by decide) (by decide) (by decide)
  rw [h]
  norm_num

/-- C1 (amended: `warp` with an all-zero flow field and no explicit
coordinate grids is *not* the identity at interior pixels; because the
generated coordinate grids are offset by −0.5 in both axes, each output
pixel `(i, j)` with `i, j ≥ 1` is the bilinear sample at
`(i − 1/2, j − 1/2)`, i.e. the mean of the four samples
`I[i−1..i, j−1..j]`). -/
theorem claim_C1 (I u v : Grid) (hu : u.isZero) (hv : v.isZero)
    (i j : ℕ) (hi1 : 1 ≤ i) (hih : i < I.h) (hj1 : 1 ≤ j) (hjw : j < I.w) :
    (warp I u v none none).data i j =
      (I.data (i - 1) (j - 1) + I.data (i - 1) j +
        I.data i (j - 1) + I.data i j) / 4 :=
  warp_zero_flow_avg I u v hu hv i j hi1 hih hj1 hjw

/-- C1 (witness): the amended theorem applied to the 3×3 centre-peak
image at the interior pixel `(1, 1)`. -/
theorem claim_C1_witness :
    (zeros_like ⟨3, 3, fun i j => if i = 1 ∧ j = 1 then 4 else 0⟩).isZero ∧
    (1 : ℕ) ≤ 1 ∧ 1 < (⟨3, 3, fun i j => if i = 1 ∧ j = 1 then 4 else 0⟩ : Grid).h ∧
    (warp ⟨3, 3, fun i j => if i = 1 ∧ j = 1 then 4 else 0⟩
        (zeros_like ⟨3, 3, fun i j => if i = 1 ∧ j = 1 then 4 else 0⟩)
        (zeros_like ⟨3, 3, fun i j => if i = 1 ∧ j = 1 then 4 else 0⟩)
        none none).data 1 1 =
      ((⟨3, 3, fun i j => if i = 1 ∧ j = 1 then 4 else 0⟩ : Grid).data 0 0 +
        (⟨3, 3, fun i j => if i = 1 ∧ j = 1 then 4 else 0⟩ : Grid).data 0 1 +
        (⟨3, 3, fun i j => if i = 1 ∧ j = 1 then 4 else 0⟩ : Grid).data 1 0 +
        (⟨3, 3, fun i j => if i = 1 ∧ j = 1 then 4 else 0⟩ : Grid).data 1 1) / 4 :=
  ⟨fun _ _ => rfl, by decide, by decide,
    claim_C1 ⟨3, 3, fun i j => if i = 1 ∧ j = 1 then 4 else 0⟩
      (zeros_like ⟨3, 3, fun i j => if i = 1 ∧ j = 1 then 4 else 0⟩)
      (zeros_like ⟨3, 3, fun i j => if i = 1 ∧ j = 1 then 4 else 0⟩)
      (fun _ _ => rfl) (fun _ _ => rfl) 1 1 (by decide) (by decide)
      (by decide) (by decide)⟩

/-! ### Pyramid construction: loop invariants and termination -/

/-- Invariant of the `get_pyramid` loop at the default downscale `2`:
with `min_size ≥ 1` and enough fuel (one unit more than the current
minimum dimension) the loop terminates and returns a nonempty
coarse-to-fine list whose head has minimum dimension `≤ min_size`, whose
remaining levels all have minimum dimension `> min_size`, whose last
element is the last element of the starting accumulator (the original
pair), and whose non-final levels all have nonzero dimensions. -/
lemma pyramidLoop_spec (smooth : Grid → ℕ → ℕ → ℚ) (min_size : ℕ)
    (hm : 1 ≤ min_size) :
    ∀ (fuel : ℕ) (cur : Grid × Grid) (accRest : List (Grid × Grid)),
      min cur.1.h cur.1.w < fuel →
      (∀ l ∈ accRest, min_size < min l.1.h l.1.w) →
      (∀ l ∈ (cur :: accRest).dropLast, 1 ≤ l.1.h ∧ 1 ≤ l.1.w) →
      ∃ out, pyramidLoop smooth 2 min_size fuel cur accRest = some out ∧
        out.getLast? = (cur :: accRest).getLast? ∧
        (∃ p0 rest, out = p0 :: rest ∧ min p0.1.h p0.1.w ≤ min_size ∧
          (∀ l ∈ rest, min_size < min l.1.h l.1.w)) ∧
        (∀ l ∈ out.dropLast, 1 ≤ l.1.h ∧ 1 ≤ l.1.w) := by
  intro fuel
  induction fuel with
  | zero => intro cur accRest hfuel; omega
  | succ f ih =>
    intro cur accRest hfuel hacc hdrop
    by_cases hc : min_size < min cur.1.h cur.1.w
    · have e0 : (pyramid_reduce smooth cur.1 2).h = (cur.1.h + 1) / 2 := by
        simp [pyramid_reduce, reduceDim_two]
      have e1 : (pyramid_reduce smooth cur.1 2).w = (cur.1.w + 1) / 2 := by
        simp [pyramid_reduce, reduceDim_two]
      have step := ih (pyramid_reduce smooth cur.1 2, pyramid_reduce smooth cur.2 2)
        (cur :: accRest)
        (by rw [e0, e1]; omega)
        (by
          intro l hl
          rcases List.mem_cons.mp hl with h | h
          · rw [h]; exact hc
          · exact hacc l h)
        (by
          intro l hl
          rcases List.mem_cons.mp hl with h | h
          · rw [h]
            constructor
            · simp only [e0]; omega
            · simp only [e1]; omega
          · exact hdrop l h)
      obtain ⟨out, hout, hlast, hhead, hdims⟩ := step
      refine ⟨out, ?_, ?_, hhead, hdims⟩
      · rw [pyramidLoop, if_pos hc]
        exact hout
      · rw [hlast, List.getLast?_cons_cons]
    · refine ⟨cur :: accRest, ?_, rfl, ⟨cur, accRest, rfl, by omega, hacc⟩, hdrop⟩
      rw [pyramidLoop, if_neg hc]

/-- `get_pyramid` on equal-shape inputs with downscale `2` and
`min_size ≥ 1`: terminates with a nonempty coarse-to-fine pyramid whose
last level is the original pair, whose coarsest level has minimum
dimension `≤ min_size`, whose other levels have minimum dimension
`> min_size`, and whose non-final levels have nonzero dimensions. -/
lemma get_pyramid_spec (smooth : Grid → ℕ → ℕ → ℚ) (I0 I1 : Grid)
    (min_size : ℕ) (hh : I0.h = I1.h) (hw : I0.w = I1.w) (hm : 1 ≤ min_size) :
    ∃ pyr, get_pyramid smooth I0 I1 2 min_size = .ok (some pyr) ∧
      pyr.getLast? = some (I0, I1) ∧
      (∃ p0 rest, pyr = p0 :: rest ∧ min p0.1.h p0.1.w ≤ min_size ∧
        (∀ l ∈ rest, min_size < min l.1.h l.1.w)) ∧
      (∀ l ∈ pyr.dropLast, 1 ≤ l.1.h ∧ 1 ≤ l.1.w) := by
  obtain ⟨out, hout, hlast, hhead, hdims⟩ :=
    pyramidLoop_spec smooth min_size hm (min I0.h I0.w + 1) (I0, I1) []
      (Nat.lt_succ_self _) (by intro l hl; simp at hl) (by intro l hl; simp at hl)
  refine ⟨out, ?_, ?_, hhead, hdims⟩
  · rw [get_pyramid, if_neg (by simp [hh, hw])]
    rw [hout]
  · rw [hlast]
    rfl

/-! ### C3: pyramid structure -/

/-- With `min_size = 0` the `get_pyramid` loop never terminates on a 1×1
level: the loop condition `1 > 0` always holds and
`ceil(1/2) = 1` keeps the shape at 1×1, so *every* amount of fuel is
exhausted. -/
lemma pyramidLoop_minsize_zero (smooth : Grid → ℕ → ℕ → ℚ) :
    ∀ (fuel : ℕ) (cur : Grid × Grid) (accRest : List (Grid × Grid)),
      cur.1.h = 1 → cur.1.w = 1 →
      pyramidLoop smooth 2 0 fuel cur accRest = none := by
  intro fuel
  induction fuel with
  | zero => intro cur accRest _ _; rfl
  | succ f ih =>
    intro cur accRest hh hw
    rw [pyramidLoop, if_pos (by omega)]
    exact ih _ _ (by simp [pyramid_reduce, reduceDim_two, hh])
      (by simp [pyramid_reduce, reduceDim_two, hw])

/-- C3 (counterexample).  The claim quantifies over *every* `min_size`,
but with `min_size = 0` and a pair of 1×1 images the Python `while` loop
never terminates: the loop condition `size > 0` always holds and
`pyramid_reduce` maps shape (1,1) to `(ceil(1/2), ceil(1/2)) = (1,1)`.
In the model the loop exhausts its fuel and `get_pyramid` returns
`.ok none` — and `pyramidLoop_minsize_zero` shows the outcome is `none`
for *every* fuel, so no returned sequence exists whose last element is
the input pair. -/
theorem counterexample_C3 :
    get_pyramid (fun _ _ _ => 0) ⟨1, 1, fun _ _ => 0⟩ ⟨1, 1, fun _ _ => 0⟩ 2 0 =
      .ok none := by
  rw [get_pyramid, if_neg (by simp)]
  rw [pyramidLoop_minsize_zero (fun _ _ _ => 0) _ _ _ rfl rfl]

/-- C3 (amended: `min_size ≥ 1`; with `min_size = 0` the loop diverges,
see the counterexample).  For every pair of same-shaped 2D images and
every `min_size ≥ 1`, `get_pyramid` (downscale 2) returns a sequence
whose last element is exactly the input pair (hence has the input shape),
whose first (coarsest) element has minimum spatial dimension
`≤ min_size`, and whose second element, if present, has minimum spatial
dimension `> min_size`. -/
theorem claim_C3 (smooth : Grid → ℕ → ℕ → ℚ) (I0 I1 : Grid) (min_size : ℕ)
    (hh : I0.h = I1.h) (hw : I0.w = I1.w) (hm : 1 ≤ min_size) :
    ∃ pyr, get_pyramid smooth I0 I1 2 min_size = .ok (some pyr) ∧
      pyr.getLast? = some (I0, I1) ∧
      (∃ p0 rest, pyr = p0 :: rest ∧ min p0.1.h p0.1.w ≤ min_size ∧
        ∀ p1, rest.head? = some p1 → min_size < min p1.1.h p1.1.w) := by
  obtain ⟨pyr, hpyr, hlast, ⟨p0, rest, hcons, hp0, hrest⟩, _⟩ :=
    get_pyramid_spec smooth I0 I1 min_size hh hw hm
  refine ⟨pyr, hpyr, hlast, p0, rest, hcons, hp0, ?_⟩
  intro p1 hp1
  cases rest with
  | nil => simp at hp1
  | cons r t =>
    have hr : r = p1 := by simpa using hp1
    rw [← hr]
    exact hrest r (List.mem_cons_self r t)

/-- C3 (witness): the amended theorem applied to a pair of constant 4×4
images with `min_size = 2`. -/
theorem claim_C3_witness :
    (⟨4, 4, fun _ _ => 0⟩ : Grid).h = (⟨4, 4, fun _ _ => 1⟩ : Grid).h ∧
    1 ≤ 2 ∧
    (∃ pyr, get_pyramid (fun _ _ _ => 0) ⟨4, 4, fun _ _ => 0⟩
        ⟨4, 4, fun _ _ => 1⟩ 2 2 = .ok (some pyr) ∧
      pyr.getLast? = some (⟨4, 4, fun _ _ => 0⟩, ⟨4, 4, fun _ _ => 1⟩) ∧
      (∃ p0 rest, pyr = p0 :: rest ∧ min p0.1.h p0.1.w ≤ 2 ∧
        ∀ p1, rest.head? = some p1 → 2 < min p1.1.h p1.1.w)) :=
  ⟨rfl, by decide,
    claim_C3 (fun _ _ _ => 0) ⟨4, 4, fun _ _ => 0⟩ ⟨4, 4, fun _ _ => 1⟩ 2
      rfl rfl (by decide)⟩

/-! ### C9: termination of get_pyramid at the default parameters -/

/-- C9.  With the default downscale factor `2.0`, one `pyramid_reduce`
step strictly decreases the minimum spatial dimension whenever it exceeds
the default `min_size = 16` (this is what makes the unchecked `while`
loop terminate), and consequently `get_pyramid` at the default parameters
terminates for every pair of same-shaped 2D images. -/
theorem claim_C9 :
    (∀ h w : ℕ, 16 < min h w →
      min (reduceDim 2 h) (reduceDim 2 w) < min h w) ∧
    (∀ (smooth : Grid → ℕ → ℕ → ℚ) (I0 I1 : Grid), I0.h = I1.h → I0.w = I1.w →
      ∃ pyr, get_pyramid smooth I0 I1 2 16 = .ok (some pyr)) := by
  constructor
  · intro h w hmin
    rw [reduceDim_two, reduceDim_two]
    omega
  · intro smooth I0 I1 hh hw
    obtain ⟨pyr, hpyr, -, -, -⟩ := get_pyramid_spec smooth I0 I1 16 hh hw (by omega)
    exact ⟨pyr, hpyr⟩

/-- C9 (witness): the strict decrease at `min (17, 20)` and termination
on a pair of 64×64 images. -/
theorem claim_C9_witness :
    (16 < min 17 20 ∧ min (reduceDim 2 17) (reduceDim 2 20) < min 17 20) ∧
    (∃ pyr, get_pyramid (fun _ _ _ => 0) ⟨64, 64, fun _ _ => 0⟩
      ⟨64, 64, fun _ _ => 0⟩ 2 16 = .ok (some pyr)) :=
  ⟨⟨by decide, claim_C9.1 17 20 (by decide)⟩,
    claim_C9.2 (fun _ _ _ => 0) ⟨64, 64, fun _ _ => 0⟩ ⟨64, 64, fun _ _ => 0⟩ rfl rfl⟩

/-! ### C5: shape mismatch fails fast -/

/-- C5.  `get_pyramid` on images of different shapes fails with the
shape-mismatch `ValueError` before building anything (for every downscale
and `min_size`), and `coarse_to_fine` on a (64,64)/(32,32) input pair
propagates exactly that error — for every injected solver, which is
therefore never invoked (the traced driver fails identically, recording
no call). -/
theorem claim_C5 :
    (∀ (smooth : Grid → ℕ → ℕ → ℚ) (I0 I1 : Grid) (d : ℚ) (m : ℕ),
      (I0.h, I0.w) ≠ (I1.h, I1.w) →
      get_pyramid smooth I0 I1 d m = .error .shapeMismatch) ∧
    (∀ (smooth : Grid → ℕ → ℕ → ℚ) (solver : Solver) (a b : Arr),
      a.shape = [64, 64] → b.shape = [32, 32] →
      coarse_to_fine_traced smooth a b solver 2 = .error .shapeMismatch ∧
      coarse_to_fine smooth a b solver 2 = .error .shapeMismatch) := by
  constructor
  · intro smooth I0 I1 d m hne
    rw [get_pyramid, if_pos hne]
  · intro smooth solver a b ha hb
    have hnd : ¬(a.ndim ≠ 2 ∨ b.ndim ≠ 2) := by
      simp [Arr.ndim, ha, hb]
    have hpy : get_pyramid smooth (img_as_float32 a.toGrid)
        (img_as_float32 b.toGrid) 2 16 = .error .shapeMismatch := by
      rw [get_pyramid, if_pos]
      simp [img_as_float32, Arr.toGrid, ha, hb]
    constructor
    · rw [coarse_to_fine_traced, if_neg hnd, hpy]
    · rw [coarse_to_fine, if_neg hnd, hpy]

/-- C5 (witness): the two parts applied to concrete mismatched inputs,
2×2 vs 3×3 grids for `get_pyramid` and (64,64) vs (32,32) arrays for
`coarse_to_fine`. -/
theorem claim_C5_witness :
    (((⟨2, 2, fun _ _ => 0⟩ : Grid).h, (⟨2, 2, fun _ _ => 0⟩ : Grid).w) ≠
      ((⟨3, 3, fun _ _ => 0⟩ : Grid).h, (⟨3, 3, fun _ _ => 0⟩ : Grid).w)) ∧
    get_pyramid (fun _ _ _ => 0) ⟨2, 2, fun _ _ => 0⟩ ⟨3, 3, fun _ _ => 0⟩ 2 16 =
      .error .shapeMismatch ∧
    (⟨[64, 64], fun _ => 0⟩ : Arr).shape = [64, 64] ∧
    coarse_to_fine_traced (fun _ _ _ => 0) ⟨[64, 64], fun _ => 0⟩
      ⟨[32, 32], fun _ => 0⟩ idSolver 2 = .error .shapeMismatch ∧
    coarse_to_fine (fun _ _ _ => 0) ⟨[64, 64], fun _ => 0⟩
      ⟨[32, 32], fun _ => 0⟩ idSolver 2 = .error .shapeMismatch :=
  ⟨by decide,
    claim_C5.1 (fun _ _ _ => 0) ⟨2, 2, fun _ _ => 0⟩ ⟨3, 3, fun _ _ => 0⟩ 2 16
      (by decide),
    rfl,
    (claim_C5.2 (fun _ _ _ => 0) idSolver ⟨[64, 64], fun _ => 0⟩
      ⟨[32, 32], fun _ => 0⟩ rfl rfl).1,
    (claim_C5.2 (fun _ _ _ => 0) idSolver ⟨[64, 64], fun _ => 0⟩
      ⟨[32, 32], fun _ => 0⟩ rfl rfl).2⟩

/-! ### C6: dimensionality check -/

/-- `upscale_flow` can only fail with `ZeroDivisionError`. -/
lemma upscale_flow_error_eq (u v : Grid) (s : ℕ × ℕ) (e : PyErr)
    (h : upscale_flow u v s = .error e) : e = .zeroDivision := by
  rw [upscale_flow] at h
  by_cases hz : u.h = 0 ∨ u.w = 0
  · rw [if_pos hz] at h
    injection h with h1
    exact h1.symm
  · rw [if_neg hz] at h
    exact Except.noConfusion h

/-- `get_pyramid` can only fail with the shape-mismatch error. -/
lemma get_pyramid_error_eq (smooth : Grid → ℕ → ℕ → ℚ) (I0 I1 : Grid)
    (d : ℚ) (m : ℕ) (e : PyErr)
    (h : get_pyramid smooth I0 I1 d m = .error e) : e = .shapeMismatch := by
  rw [get_pyramid] at h
  by_cases hne : (I0.h, I0.w) ≠ (I1.h, I1.w)
  · rw [if_pos hne] at h
    injection h with h1
    exact h1.symm
  · rw [if_neg hne] at h
    exact Except.noConfusion h

/-- The per-level loop can only fail with `ZeroDivisionError` (from
`upscale_flow`). -/
lemma levelLoop_error_eq (solver : Solver) :
    ∀ (levels : List (Grid × Grid)) (uv : Grid × Grid) (e : PyErr),
      levelLoop solver levels uv = .error e → e = .zeroDivision := by
  intro levels
  induction levels with
  | nil =>
    intro uv e h
    rw [levelLoop] at h
    exact Except.noConfusion h
  | cons L rest ih =>
    intro uv e h
    obtain ⟨J0, J1⟩ := L
    obtain ⟨u, v⟩ := uv
    rw [levelLoop] at h
    rcases hup : upscale_flow u v (J0.h, J0.w) with e' | p
    · rw [hup] at h
      injection h with h1
      rw [← h1]
      exact upscale_flow_error_eq u v (J0.h, J0.w) e' hup
    · rw [hup] at h
      exact ih (solver J0 J1 p.1 p.2) e h

/-- C6.  `coarse_to_fine` rejects any input pair in which some array is
not 2D with the dimensionality `ValueError` — for every solver, `smooth`
and downscale, i.e. before pyramid construction and before any solver
invocation — and for two 2D inputs this error is never produced. -/
theorem claim_C6 :
    (∀ (smooth : Grid → ℕ → ℕ → ℚ) (solver : Solver) (I0 I1 : Arr) (d : ℚ),
      (I0.ndim ≠ 2 ∨ I1.ndim ≠ 2) →
      coarse_to_fine smooth I0 I1 solver d = .error .dimensionality) ∧
    (∀ (smooth : Grid → ℕ → ℕ → ℚ) (solver : Solver) (I0 I1 : Arr) (d : ℚ),
      I0.ndim = 2 → I1.ndim = 2 →
      coarse_to_fine smooth I0 I1 solver d ≠ .error .dimensionality) := by
  constructor
  · intro smooth solver I0 I1 d hnd
    rw [coarse_to_fine, if_pos hnd]
  · intro smooth solver I0 I1 d h0 h1
    rw [coarse_to_fine, if_neg (by simp [h0, h1])]
    rcases hg : get_pyramid smooth (img_as_float32 I0.toGrid)
        (img_as_float32 I1.toGrid) d 16 with e | o
    · have : e = .shapeMismatch := get_pyramid_error_eq _ _ _ _ _ _ hg
      rw [this]
      intro hcontra
      exact PyErr.noConfusion (Except.error.inj hcontra)
    · rcases o with _ | pyr
      · intro hcontra
        exact Except.noConfusion hcontra
      · rcases pyr with _ | ⟨p0, rest⟩
        · intro hcontra
          exact PyErr.noConfusion (Except.error.inj hcontra)
        · simp only
          rcases hl : levelLoop solver rest
              (solver p0.1 p0.2 (zeros_like p0.1) (zeros_like (zeros_like p0.1)))
            with e | uv
          · have he : e = .zeroDivision := levelLoop_error_eq solver _ _ _ hl
            rw [he]
            intro hcontra
            exact PyErr.noConfusion (Except.error.inj hcontra)
          · intro hcontra
            exact Except.noConfusion hcontra

/-- C6 (witness): a 1D first input is rejected with the dimensionality
error; a pair of 2D inputs never produces it. -/
theorem claim_C6_witness :
    ((⟨[5], fun _ => 0⟩ : Arr).ndim ≠ 2 ∨ (⟨[8, 8], fun _ => 0⟩ : Arr).ndim ≠ 2) ∧
    coarse_to_fine (fun _ _ _ => 0) ⟨[5], fun _ => 0⟩ ⟨[8, 8], fun _ => 0⟩
      idSolver 2 = .error .dimensionality ∧
    (⟨[8, 8], fun _ => 0⟩ : Arr).ndim = 2 ∧
    coarse_to_fine (fun _ _ _ => 0) ⟨[8, 8], fun _ => 0⟩ ⟨[8, 8], fun _ => 0⟩
      idSolver 2 ≠ .error .dimensionality :=
  ⟨Or.inl (by decide),
    claim_C6.1 (fun _ _ _ => 0) idSolver ⟨[5], fun _ => 0⟩ ⟨[8, 8], fun _ => 0⟩ 2
      (Or.inl (by decide)),
    rfl,
    claim_C6.2 (fun _ _ _ => 0) idSolver ⟨[8, 8], fun _ => 0⟩ ⟨[8, 8], fun _ => 0⟩ 2
      rfl rfl⟩

/-! ### The traced driver: erasure and call-discipline lemmas -/

/-- Dropping the trace from `levelLoopT` yields `levelLoop`. -/
lemma levelLoopT_erase (solver : Solver) :
    ∀ (levels : List (Grid × Grid)) (uv : Grid × Grid),
      levelLoop solver levels uv = (levelLoopT solver levels uv).map Prod.snd := by
  intro levels
  induction levels with
  | nil => intro uv; rfl
  | cons L rest ih =>
    intro uv
    obtain ⟨J0, J1⟩ := L
    obtain ⟨u, v⟩ := uv
    rw [levelLoop, levelLoopT]
    rcases hup : upscale_flow u v (J0.h, J0.w) with e | p
    · rfl
    · obtain ⟨u1, v1⟩ := p
      simp only [ih (solver J0 J1 u1 v1)]
      rcases levelLoopT solver rest (solver J0 J1 u1 v1) with e | pr
      · rfl
      · rfl

/-- Inversion of a successful `upscale_flow`: the output grids have the
target shape, and a zero input component yields a zero output
component. -/
lemma upscale_flow_ok_inv (u v : Grid) (s : ℕ × ℕ) (p : Grid × Grid)
    (h : upscale_flow u v s = .ok p) :
    p.1.h = s.1 ∧ p.1.w = s.2 ∧ p.2.h = s.1 ∧ p.2.w = s.2 ∧
    (u.isZero → p.1.isZero) ∧ (v.isZero → p.2.isZero) := by
  rw [upscale_flow] at h
  by_cases hz : u.h = 0 ∨ u.w = 0
  · rw [if_pos hz] at h
    exact Except.noConfusion h
  · rw [if_neg hz] at h
    injection h with h1
    rw [← h1]
    refine ⟨rfl, rfl, rfl, rfl, ?_, ?_⟩
    · intro h0 i j
      show ((s.2 : ℚ) / (u.w : ℚ)) * (resize0 u s.1 s.2).data i j = 0
      rw [resize0]
      simp only
      rw [h0, mul_zero]
    · intro h0 i j
      show ((s.1 : ℚ) / (u.h : ℚ)) * (resize0 v s.1 s.2).data i j = 0
      rw [resize0]
      simp only
      rw [h0, mul_zero]

/-- A nonempty current flow makes `upscale_flow` succeed. -/
lemma upscale_flow_ok (u v : Grid) (s : ℕ × ℕ) (hh : 1 ≤ u.h) (hw : 1 ≤ u.w) :
    ∃ p, upscale_flow u v s = .ok p := by
  rw [upscale_flow, if_neg (by omega)]
  exact ⟨_, rfl⟩

/-- The instrumented per-level loop on a list of levels whose non-final
entries are nonempty, started from a nonempty flow: it succeeds, records
exactly one call per level in order, and the calls are chained — each
call receives the previous flow rescaled to its level's shape and each
output feeds the next call. -/
lemma levelLoopT_spec (solver : Solver)
    (hs : ∀ a b x y, x.h = a.h → x.w = a.w → y.h = a.h → y.w = a.w →
      (solver a b x y).1.h = a.h ∧ (solver a b x y).1.w = a.w ∧
      (solver a b x y).2.h = a.h ∧ (solver a b x y).2.w = a.w) :
    ∀ (levels : List (Grid × Grid)) (u v : Grid),
      (levels ≠ [] → 1 ≤ u.h ∧ 1 ≤ u.w) →
      (∀ l ∈ levels.dropLast, 1 ≤ l.1.h ∧ 1 ≤ l.1.w) →
      ∃ tr res, levelLoopT solver levels (u, v) = .ok (tr, res) ∧
        tr.map (fun c => (c.J0, c.J1)) = levels ∧
        chainFrom solver (u, v) tr res := by
  intro levels
  induction levels with
  | nil =>
    intro u v _ _
    exact ⟨[], (u, v), rfl, rfl, rfl⟩
  | cons L rest ih =>
    intro u v hu hdrop
    obtain ⟨J0, J1⟩ := L
    have hu' := hu (by simp)
    obtain ⟨p, hup⟩ := upscale_flow_ok u v (J0.h, J0.w) hu'.1 hu'.2
    obtain ⟨ph1, pw1, ph2, pw2, -, -⟩ := upscale_flow_ok_inv u v _ p hup
    obtain ⟨u1, v1⟩ := p
    have hsol := hs J0 J1 u1 v1 ph1 pw1 ph2 pw2
    have hJ0 : rest ≠ [] → 1 ≤ J0.h ∧ 1 ≤ J0.w := by
      intro hne
      have hmem : ((J0, J1) : Grid × Grid) ∈ ((J0, J1) :: rest).dropLast := by
        cases rest with
        | nil => exact absurd rfl hne
        | cons r t => exact List.mem_cons_self _ _
      exact hdrop _ hmem
    have hdrop' : ∀ l ∈ rest.dropLast, 1 ≤ l.1.h ∧ 1 ≤ l.1.w := by
      intro l hl
      apply hdrop
      cases rest with
      | nil => simp at hl
      | cons r t => exact List.mem_cons_of_mem _ hl
    obtain ⟨tr, res, hT, hmap, hchain⟩ :=
      ih (solver J0 J1 u1 v1).1 (solver J0 J1 u1 v1).2
        (by
          intro hne
          rw [hsol.1, hsol.2.1]
          exact hJ0 hne)
        hdrop'
    have hT' : levelLoopT solver rest (solver J0 J1 u1 v1) = .ok (tr, res) := hT
    have hchain' : chainFrom solver (solver J0 J1 u1 v1) tr res := hchain
    refine ⟨⟨J0, J1, u1, v1⟩ :: tr, res, ?_, ?_, hup, hchain'⟩
    · rw [levelLoopT]
      simp only [hup, hT']
    · rw [List.map_cons, hmap]

/-- Dropping the trace from `coarse_to_fine_traced` yields
`coarse_to_fine`. -/
lemma coarse_to_fine_erase (smooth : Grid → ℕ → ℕ → ℚ) (I0 I1 : Arr)
    (solver : Solver) (d : ℚ) :
    coarse_to_fine smooth I0 I1 solver d =
      (coarse_to_fine_traced smooth I0 I1 solver d).map (Option.map Prod.snd) := by
  rw [coarse_to_fine, coarse_to_fine_traced]
  by_cases hnd : I0.ndim ≠ 2 ∨ I1.ndim ≠ 2
  · rw [if_pos hnd, if_pos hnd]
    rfl
  · rw [if_neg hnd, if_neg hnd]
    rcases hg : get_pyramid smooth (img_as_float32 I0.toGrid)
        (img_as_float32 I1.toGrid) d 16 with e | o
    · rfl
    · rcases o with _ | pyr
      · rfl
      · rcases pyr with _ | ⟨p0, rest⟩
        · rfl
        · simp only [levelLoopT_erase solver rest]
          rcases levelLoopT solver rest
              (solver p0.1 p0.2 (zeros_like p0.1) (zeros_like (zeros_like p0.1)))
            with e | pr
          · rfl
          · rfl

/-- Along a coarse-to-fine call chain of the identity solver started from
an all-zero flow, every flow stays all-zero, and the final flow has the
shape of the last call's level (or is the initial flow when there is no
call). -/
lemma chainFrom_id_spec :
    ∀ (tr : List SolverCall) (u v : Grid) (res : Grid × Grid),
      chainFrom idSolver (u, v) tr res → u.isZero → v.isZero →
      res.1.isZero ∧ res.2.isZero ∧
      ((tr = [] ∧ res = (u, v)) ∨
        (∃ c, tr.getLast? = some c ∧ res.1.h = c.J0.h ∧ res.1.w = c.J0.w ∧
          res.2.h = c.J0.h ∧ res.2.w = c.J0.w)) := by
  intro tr
  induction tr with
  | nil =>
    intro u v res hch hu hv
    have hres : res = (u, v) := hch
    rw [hres]
    exact ⟨hu, hv, Or.inl ⟨rfl, rfl⟩⟩
  | cons c tr ih =>
    intro u v res hch hu hv
    obtain ⟨hup, hchain⟩ := hch
    obtain ⟨cs1h, cs1w, cs2h, cs2w, cz1, cz2⟩ :=
      upscale_flow_ok_inv u v (c.J0.h, c.J0.w) (c.u, c.v) hup
    have hchain' : chainFrom idSolver (c.u, c.v) tr res := hchain
    obtain ⟨rz1, rz2, hrest⟩ := ih c.u c.v res hchain' (cz1 hu) (cz2 hv)
    refine ⟨rz1, rz2, Or.inr ?_⟩
    rcases hrest with ⟨htr, hres⟩ | ⟨c', hc', h1, h2, h3, h4⟩
    · subst htr
      rw [hres]
      exact ⟨c, rfl, cs1h, cs1w, cs2h, cs2w⟩
    · refine ⟨c', ?_, h1, h2, h3, h4⟩
      cases tr with
      | nil => simp at hc'
      | cons t0 t => rw [List.getLast?_cons_cons]; exact hc'

/-- The identity solver trivially satisfies the solver shape contract. -/
lemma idSolver_shapes :
    ∀ (a b x y : Grid), x.h = a.h → x.w = a.w → y.h = a.h → y.w = a.w →
      (idSolver a b x y).1.h = a.h ∧ (idSolver a b x y).1.w = a.w ∧
      (idSolver a b x y).2.h = a.h ∧ (idSolver a b x y).2.w = a.w :=
  fun _ _ _ _ hx hy hz hw => ⟨hx, hy, hz, hw⟩

/-- `coarse_to_fine` of any 2D array with itself under the identity
solver: returns an all-zero flow of the full-resolution shape. -/
lemma coarse_to_fine_id_zero (smooth : Grid → ℕ → ℕ → ℚ) (a : Arr)
    (h2 : a.ndim = 2) :
    ∃ u v, coarse_to_fine smooth a a idSolver 2 = .ok (some (u, v)) ∧
      u.h = a.toGrid.h ∧ u.w = a.toGrid.w ∧ v.h = a.toGrid.h ∧ v.w = a.toGrid.w ∧
      u.isZero ∧ v.isZero := by
  obtain ⟨pyr, hpyr, hlast, ⟨p0, rest, hcons, hp0min, hrestmin⟩, hdims⟩ :=
    get_pyramid_spec smooth a.toGrid a.toGrid 16 rfl rfl (by omega)
  subst hcons
  obtain ⟨tr, res, hT, hmap, hchain⟩ :=
    levelLoopT_spec idSolver idSolver_shapes rest
      (zeros_like p0.1) (zeros_like (zeros_like p0.1))
      (by
        intro hne
        have hmem : p0 ∈ (p0 :: rest).dropLast := by
          cases rest with
          | nil => exact absurd rfl hne
          | cons r t => exact List.mem_cons_self _ _
        exact hdims _ hmem)
      (by
        intro l hl
        apply hdims
        cases rest with
        | nil => simp at hl
        | cons r t => exact List.mem_cons_of_mem _ hl)
  have hL : levelLoop idSolver rest
      (idSolver p0.1 p0.2 (zeros_like p0.1) (zeros_like (zeros_like p0.1))) =
      .ok res := by
    rw [levelLoopT_erase]
    have hT' : levelLoopT idSolver rest
        (idSolver p0.1 p0.2 (zeros_like p0.1) (zeros_like (zeros_like p0.1))) =
        .ok (tr, res) := hT
    rw [hT']
    rfl
  have hcf : coarse_to_fine smooth a a idSolver 2 = .ok (some res) := by
    rw [coarse_to_fine, if_neg (by simp [h2])]
    simp only [img_as_float32] at hpyr ⊢
    rw [hpyr]
    simp only [hL]
  have hchain' : chainFrom idSolver
      (zeros_like p0.1, zeros_like (zeros_like p0.1)) tr res := hchain
  obtain ⟨rz1, rz2, hshape⟩ := chainFrom_id_spec tr _ _ res hchain'
    (fun _ _ => rfl) (fun _ _ => rfl)
  refine ⟨res.1, res.2, ?_, ?_, ?_, ?_, ?_, rz1, rz2⟩
  · rw [hcf]
  all_goals
    rcases hshape with ⟨htr, hres⟩ | ⟨c, hc, h1', h2', h3', h4'⟩
  case _ =>
    -- no further calls: the pyramid is the single original level
    subst htr
    have hrest : rest = [] := by simpa using hmap.symm
    subst hrest
    have hp0 : p0 = (a.toGrid, a.toGrid) := by simpa using hlast
    rw [hres, hp0]
    rfl
  case _ =>
    -- the last call's level is the last pyramid level, the original pair
    have hrl : rest.getLast? = some (c.J0, c.J1) := by
      rw [← hmap, List.getLast?_map, hc]
      rfl
    have hJ0 : c.J0 = a.toGrid := by
      cases rest with
      | nil => simp at hrl
      | cons r t =>
        rw [List.getLast?_cons_cons, hrl] at hlast
        have : ((c.J0, c.J1) : Grid × Grid) = (a.toGrid, a.toGrid) := by
          simpa using hlast
        exact congrArg Prod.fst this
    rw [h1', hJ0]
  case _ =>
    subst htr
    have hrest : rest = [] := by simpa using hmap.symm
    subst hrest
    have hp0 : p0 = (a.toGrid, a.toGrid) := by simpa using hlast
    rw [hres, hp0]
    rfl
  case _ =>
    have hrl : rest.getLast? = some (c.J0, c.J1) := by
      rw [← hmap, List.getLast?_map, hc]
      rfl
    have hJ0 : c.J0 = a.toGrid := by
      cases rest with
      | nil => simp at hrl
      | cons r t =>
        rw [List.getLast?_cons_cons, hrl] at hlast
        have : ((c.J0, c.J1) : Grid × Grid) = (a.toGrid, a.toGrid) := by
          simpa using hlast
        exact congrArg Prod.fst this
    rw [h2', hJ0]
  case _ =>
    subst htr
    have hrest : rest = [] := by simpa using hmap.symm
    subst hrest
    have hp0 : p0 = (a.toGrid, a.toGrid) := by simpa using hlast
    rw [hres, hp0]
    rfl
  case _ =>
    have hrl : rest.getLast? = some (c.J0, c.J1) := by
      rw [← hmap, List.getLast?_map, hc]
      rfl
    have hJ0 : c.J0 = a.toGrid := by
      cases rest with
      | nil => simp at hrl
      | cons r t =>
        rw [List.getLast?_cons_cons, hrl] at hlast
        have : ((c.J0, c.J1) : Grid × Grid) = (a.toGrid, a.toGrid) := by
          simpa using hlast
        exact congrArg Prod.fst this
    rw [h3', hJ0]
  case _ =>
    subst htr
    have hrest : rest = [] := by simpa using hmap.symm
    subst hrest
    have hp0 : p0 = (a.toGrid, a.toGrid) := by simpa using hlast
    rw [hres, hp0]
    rfl
  case _ =>
    have hrl : rest.getLast? = some (c.J0, c.J1) := by
      rw [← hmap, List.getLast?_map, hc]
      rfl
    have hJ0 : c.J0 = a.toGrid := by
      cases rest with
      | nil => simp at hrl
      | cons r t =>
        rw [List.getLast?_cons_cons, hrl] at hlast
        have : ((c.J0, c.J1) : Grid × Grid) = (a.toGrid, a.toGrid) := by
          simpa using hlast
        exact congrArg Prod.fst this
    rw [h4', hJ0]

/-! ### C4: identical 64×64 images, identity solver, zero flow -/

/-- C4.  For two identical 64×64 grayscale images and the solver that
returns its input flow unchanged, `coarse_to_fine` returns an all-zero
flow field of shape (64, 64): the zero flow initialised at the coarsest
level is preserved by every `upscale_flow` step and every
identity-solver invocation up to full resolution. -/
theorem claim_C4 (smooth : Grid → ℕ → ℕ → ℚ) (a : Arr)
    (ha : a.shape = [64, 64]) :
    ∃ u v, coarse_to_fine smooth a a idSolver 2 = .ok (some (u, v)) ∧
      u.h = 64 ∧ u.w = 64 ∧ v.h = 64 ∧ v.w = 64 ∧ u.isZero ∧ v.isZero := by
  have h2 : a.ndim = 2 := by simp [Arr.ndim, ha]
  obtain ⟨u, v, hcf, huh, huw, hvh, hvw, hz1, hz2⟩ :=
    coarse_to_fine_id_zero smooth a h2
  have hgh : a.toGrid.h = 64 := by simp [Arr.toGrid, ha]
  have hgw : a.toGrid.w = 64 := by simp [Arr.toGrid, ha]
  exact ⟨u, v, hcf, by rw [huh, hgh], by rw [huw, hgw], by rw [hvh, hgh],
    by rw [hvw, hgw], hz1, hz2⟩

/-- C4 (witness): the theorem applied to the concrete all-zero 64×64
array. -/
theorem claim_C4_witness :
    (⟨[64, 64], fun _ => 0⟩ : Arr).shape = [64, 64] ∧
    (∃ u v, coarse_to_fine (fun _ _ _ => 0) ⟨[64, 64], fun _ => 0⟩
        ⟨[64, 64], fun _ => 0⟩ idSolver 2 = .ok (some (u, v)) ∧
      u.h = 64 ∧ u.w = 64 ∧ v.h = 64 ∧ v.w = 64 ∧ u.isZero ∧ v.isZero) :=
  ⟨rfl, claim_C4 (fun _ _ _ => 0) ⟨[64, 64], fun _ => 0⟩ rfl⟩

/-! ### C7: one solver call per level, coarse to fine -/

/-- C7.  For every valid input pair (both 2D, equal shapes) and every
solver obeying the documented contract (refined flow has the level's
shape), the driver performs exactly one solver invocation per pyramid
level, in coarse-to-fine order: the recorded calls map onto the pyramid
levels in order, the first call receives the coarsest pair with the
all-zero initial flow, each subsequent call receives the previous call's
output rescaled by `upscale_flow` to its level's shape
(`chainFrom`), and the returned flow is the last call's output. -/
theorem claim_C7 (smooth : Grid → ℕ → ℕ → ℚ) (solver : Solver) (I0 I1 : Arr)
    (hsolver : ∀ a b x y : Grid,
      (solver a b x y).1.h = a.h ∧ (solver a b x y).1.w = a.w ∧
      (solver a b x y).2.h = a.h ∧ (solver a b x y).2.w = a.w)
    (h0 : I0.ndim = 2) (h1 : I1.ndim = 2)
    (hh : I0.toGrid.h = I1.toGrid.h) (hw : I0.toGrid.w = I1.toGrid.w) :
    ∃ pyr c0 tr res,
      get_pyramid smooth (img_as_float32 I0.toGrid) (img_as_float32 I1.toGrid)
        2 16 = .ok (some pyr) ∧
      coarse_to_fine_traced smooth I0 I1 solver 2 = .ok (some (c0 :: tr, res)) ∧
      coarse_to_fine smooth I0 I1 solver 2 = .ok (some res) ∧
      (c0 :: tr).map (fun c => (c.J0, c.J1)) = pyr ∧
      c0.u = zeros_like c0.J0 ∧ c0.v = zeros_like c0.J0 ∧
      chainFrom solver (solver c0.J0 c0.J1 c0.u c0.v) tr res := by
  obtain ⟨pyr, hpyr, hlast, ⟨p0, rest, hcons, hp0min, hrestmin⟩, hdims⟩ :=
    get_pyramid_spec smooth I0.toGrid I1.toGrid 16 hh hw (by omega)
  subst hcons
  have hs : ∀ a b x y : Grid, x.h = a.h → x.w = a.w → y.h = a.h → y.w = a.w →
      (solver a b x y).1.h = a.h ∧ (solver a b x y).1.w = a.w ∧
      (solver a b x y).2.h = a.h ∧ (solver a b x y).2.w = a.w :=
    fun a b x y _ _ _ _ => hsolver a b x y
  obtain ⟨tr, res, hT, hmap, hchain⟩ :=
    levelLoopT_spec solver hs rest
      (solver p0.1 p0.2 (zeros_like p0.1) (zeros_like (zeros_like p0.1))).1
      (solver p0.1 p0.2 (zeros_like p0.1) (zeros_like (zeros_like p0.1))).2
      (by
        intro hne
        have hmem : p0 ∈ (p0 :: rest).dropLast := by
          cases rest with
          | nil => exact absurd rfl hne
          | cons r t => exact List.mem_cons_self _ _
        have hd := hdims _ hmem
        rw [(hsolver p0.1 p0.2 _ _).1, (hsolver p0.1 p0.2 _ _).2.1]
        exact hd)
      (by
        intro l hl
        apply hdims
        cases rest with
        | nil => simp at hl
        | cons r t => exact List.mem_cons_of_mem _ hl)
  have hT' : levelLoopT solver rest
      (solver p0.1 p0.2 (zeros_like p0.1) (zeros_like (zeros_like p0.1))) =
      .ok (tr, res) := hT
  have hpyrF : get_pyramid smooth (img_as_float32 I0.toGrid)
      (img_as_float32 I1.toGrid) 2 16 = .ok (some (p0 :: rest)) := hpyr
  have htraced : coarse_to_fine_traced smooth I0 I1 solver 2 =
      .ok (some (⟨p0.1, p0.2, zeros_like p0.1,
        zeros_like (zeros_like p0.1)⟩ :: tr, res)) := by
    rw [coarse_to_fine_traced, if_neg (by simp [h0, h1]), hpyrF]
    simp only [hT']
  have hplain : coarse_to_fine smooth I0 I1 solver 2 = .ok (some res) := by
    rw [coarse_to_fine_erase, htraced]
    rfl
  refine ⟨p0 :: rest,
    ⟨p0.1, p0.2, zeros_like p0.1, zeros_like (zeros_like p0.1)⟩, tr, res,
    hpyrF, htraced, hplain, ?_, rfl, rfl, ?_⟩
  · rw [List.map_cons, hmap]
  · exact hchain

/-- C7 (witness): the theorem applied to two identical 64×64 arrays and
the contract-satisfying solver that returns the all-zero flow of the
level's shape. -/
theorem claim_C7_witness :
    (∀ a b x y : Grid,
      (((fun a _ _ _ => (zeros_like a, zeros_like a)) : Solver) a b x y).1.h = a.h ∧
      (((fun a _ _ _ => (zeros_like a, zeros_like a)) : Solver) a b x y).1.w = a.w ∧
      (((fun a _ _ _ => (zeros_like a, zeros_like a)) : Solver) a b x y).2.h = a.h ∧
      (((fun a _ _ _ => (zeros_like a, zeros_like a)) : Solver) a b x y).2.w = a.w) ∧
    (⟨[64, 64], fun _ => 0⟩ : Arr).ndim = 2 ∧
    (∃ pyr c0 tr res,
      get_pyramid (fun _ _ _ => 0)
        (img_as_float32 (⟨[64, 64], fun _ => 0⟩ : Arr).toGrid)
        (img_as_float32 (⟨[64, 64], fun _ => 0⟩ : Arr).toGrid) 2 16 =
          .ok (some pyr) ∧
      coarse_to_fine_traced (fun _ _ _ => 0) ⟨[64, 64], fun _ => 0⟩
        ⟨[64, 64], fun _ => 0⟩
        ((fun a _ _ _ => (zeros_like a, zeros_like a)) : Solver) 2 =
          .ok (some (c0 :: tr, res)) ∧
      coarse_to_fine (fun _ _ _ => 0) ⟨[64, 64], fun _ => 0⟩
        ⟨[64, 64], fun _ => 0⟩
        ((fun a _ _ _ => (zeros_like a, zeros_like a)) : Solver) 2 =
          .ok (some res) ∧
      (c0 :: tr).map (fun c => (c.J0, c.J1)) = pyr ∧
      c0.u = zeros_like c0.J0 ∧ c0.v = zeros_like c0.J0 ∧
      chainFrom ((fun a _ _ _ => (zeros_like a, zeros_like a)) : Solver)
        (((fun a _ _ _ => (zeros_like a, zeros_like a)) : Solver)
          c0.J0 c0.J1 c0.u c0.v) tr res) :=
  ⟨fun _ _ _ _ => ⟨rfl, rfl, rfl, rfl⟩, rfl,
    claim_C7 (fun _ _ _ => 0) ((fun a _ _ _ => (zeros_like a, zeros_like a)) : Solver)
      ⟨[64, 64], fun _ => 0⟩ ⟨[64, 64], fun _ => 0⟩
      (fun _ _ _ _ => ⟨rfl, rfl, rfl, rfl⟩) rfl rfl rfl rfl⟩
